import Mathlib

/-!
Verification development for the email content-normalizer and thread-store
core (src/core/email_cleaner.py and src/database/database.py).

Strings are modelled as `List Char`; Python regular-expression substitutions
used by the cleaner are modelled by dedicated functions that implement the
leftmost/greedy semantics of each concrete pattern appearing in the source
(all patterns run with `re.DOTALL | re.IGNORECASE`).  The character classes
`\w`, `\s`, `\d` are modelled over ASCII.
-/

set_option autoImplicit false

namespace EmailCore

abbrev Str := List Char

/-- Python `\s` class (ASCII): space, tab, newline, carriage return,
vertical tab, form feed. -/
def isWS (c : Char) : Bool :=
  c = ' ' || c = '\t' || c = '\n' || c = '\r' || c = '\x0b' || c = '\x0c'

/-- Python `\w` class (ASCII model): letters, digits, underscore. -/
def isWordCh (c : Char) : Bool :=
  c.isAlpha || c.isDigit || c = '_'

/-- Case-insensitive character comparison, as used by `re.IGNORECASE`. -/
def lowEq (a b : Char) : Bool := a.toLower = b.toLower

/-- Lower-case every character (Python `str.lower`, ASCII model). -/
def lowerStr (s : Str) : Str := s.map Char.toLower

/-- Does `pat` occur at the start of `s`, case-insensitively? -/
def startsCI : Str → Str → Bool
  | [], _ => true
  | _ :: _, [] => false
  | p :: ps, c :: cs => lowEq p c && startsCI ps cs

/-- Does `pat` occur at the start of `s` (case-sensitive)? -/
def startsCS : Str → Str → Bool
  | [], _ => true
  | _ :: _, [] => false
  | p :: ps, c :: cs => (p = c : Bool) && startsCS ps cs

/-- Index of the first (case-insensitive) occurrence of `pat` in `s`. -/
def findCI (pat : Str) : Str → Option Nat
  | [] => if startsCI pat [] then some 0 else none
  | c :: cs => if startsCI pat (c :: cs) then some 0 else (findCI pat cs).map (· + 1)

/-- Whether `pat` occurs in `s`, case-insensitively. -/
def containsCI (pat s : Str) : Bool := (findCI pat s).isSome

/-- Whether `pat` occurs in `s`, case-sensitively (Python `in`). -/
def containsCS : Str → Str → Bool
  | pat, [] => startsCS pat []
  | pat, c :: cs => startsCS pat (c :: cs) || containsCS pat cs

/-- Index of the last occurrence of character `ch` in `s`. -/
def lastIdxOf (ch : Char) : Str → Option Nat
  | [] => none
  | c :: cs =>
    match lastIdxOf ch cs with
    | some j => some (j + 1)
    | none => if c = ch then some 0 else none

/-- Python `str.strip()`: remove leading and trailing whitespace. -/
def pyStrip (s : Str) : Str :=
  ((s.dropWhile isWS).reverse.dropWhile isWS).reverse

/-- Python `str.strip(chars)`: remove leading and trailing characters
drawn from the given set. -/
def stripCharSet (chars : List Char) (s : Str) : Str :=
  ((s.dropWhile (· ∈ chars)).reverse.dropWhile (· ∈ chars)).reverse

/-- One substitution `re.sub(tok + ".*\n", " ", s, flags=DOTALL|IGNORECASE)`:
with DOTALL the greedy `.*\n` extends to the last newline of the string, so
the leftmost occurrence of `tok` that ends at or before that newline starts
the single replaced span. -/
def subTokNL (tok : Str) (s : Str) : Str :=
  match lastIdxOf '\n' s, findCI tok s with
  | some nl, some i =>
    if i + tok.length ≤ nl + 1 then s.take i ++ [' '] ++ s.drop (nl + 1) else s
  | _, _ => s

/-- One substitution `re.sub(tok + ".*", " ", s, flags=DOTALL|IGNORECASE)`:
the match runs from the leftmost occurrence of `tok` to the end of the
string. -/
def subTokEnd (tok : Str) (s : Str) : Str :=
  match findCI tok s with
  | some i => s.take i ++ [' ']
  | none => s

/-- Match of `--\s*tok` at the head of `s` (used by the forwarded-message
banner pattern). -/
def matchDashTok (tok : Str) (s : Str) : Bool :=
  match s with
  | '-' :: '-' :: rest => startsCI tok (rest.dropWhile isWS)
  | _ => false

/-- Leftmost start of a `--\s*tok` match. -/
def findDashTok (tok : Str) : Str → Option Nat
  | [] => none
  | c :: cs =>
    if matchDashTok tok (c :: cs) then some 0 else (findDashTok tok cs).map (· + 1)

/-- Substitution for the pattern `--\s*tok.*` (removal to end of string). -/
def subDashTokEnd (tok : Str) (s : Str) : Str :=
  match findDashTok tok s with
  | some i => s.take i ++ [' ']
  | none => s

/-- Match of `--\s*\n` at the head of `s` (the dash-delimited signature
delimiter): two dashes followed by a whitespace run containing a newline. -/
def matchDashNL (s : Str) : Bool :=
  match s with
  | '-' :: '-' :: rest => '\n' ∈ rest.takeWhile isWS
  | _ => false

/-- Leftmost start of a `--\s*\n` match. -/
def findDashNL : Str → Option Nat
  | [] => none
  | c :: cs =>
    if matchDashNL (c :: cs) then some 0 else (findDashNL cs).map (· + 1)

/-- Substitution for the signature pattern `--\s*\n.*`. -/
def subDashNLEnd (s : Str) : Str :=
  match findDashNL s with
  | some i => s.take i ++ [' ']
  | none => s

/-- Do the tokens of `toks` occur in `s`, in order, each after the end of
the previous one (existence semantics of `t1.*t2.*…` with DOTALL)? -/
def seqContains : List Str → Str → Bool
  | [], _ => true
  | t :: ts, s =>
    match findCI t s with
    | some i => seqContains ts (s.drop (i + t.length))
    | none => false

/-- Leftmost start of a match of `t.*t1.*t2…` (chain pattern): the first
position where `t` matches and the remaining tokens occur, in order, in
the rest of the string. -/
def findChain (t : Str) (rest : List Str) : Str → Option Nat
  | [] => none
  | c :: cs =>
    if startsCI t (c :: cs) && seqContains rest ((c :: cs).drop t.length) then some 0
    else (findChain t rest cs).map (· + 1)

/-- Substitution for a chain pattern ending in `.*` (removal to end). -/
def subChainEnd (t : Str) (rest : List Str) (s : Str) : Str :=
  match findChain t rest s with
  | some i => s.take i ++ [' ']
  | none => s

/-- Substitution `re.sub(r"\s+", " ", s)`: collapse every whitespace run to
a single space.  The Boolean argument records whether the previous
character was whitespace. -/
def collapseWSAux : Bool → Str → Str
  | _, [] => []
  | prev, c :: cs =>
    if isWS c then
      if prev then collapseWSAux true cs else ' ' :: collapseWSAux true cs
    else c :: collapseWSAux false cs

/-- Collapse whitespace runs to single spaces. -/
def collapseWS (s : Str) : Str := collapseWSAux false s

/-- Substitution `re.sub(ch + "+", " ", s)`: collapse every run of the
single character `ch` to one space. -/
def collapseRunAux (ch : Char) : Bool → Str → Str
  | _, [] => []
  | prev, c :: cs =>
    if c = ch then
      if prev then collapseRunAux ch true cs else ' ' :: collapseRunAux ch true cs
    else c :: collapseRunAux ch false cs

/-- Collapse runs of one character to single spaces. -/
def collapseRun (ch : Char) (s : Str) : Str := collapseRunAux ch false s

/-- Substitution for `\[tok:.*\]`-style attachment placeholders: with
DOTALL the greedy `.*\]` extends to the last `]` of the string, so the
single replaced span runs from the leftmost `tok` occurrence to the last
`]` at or after the end of `tok`. -/
def subBracketTok (tok : Str) (s : Str) : Str :=
  match findCI tok s, lastIdxOf ']' s with
  | some i, some k =>
    if i + tok.length ≤ k then s.take i ++ [' '] ++ s.drop (k + 1) else s
  | _, _ => s

/-- Substitution for `<image\d+>`: every occurrence of `<image`, one or
more digits, `>` is replaced by a space (global, left to right). -/
def subImageNumF : Nat → Str → Str
  | 0, s => s
  | _ + 1, [] => []
  | fuel + 1, c :: cs =>
    if startsCI ('<' :: 'i' :: 'm' :: 'a' :: 'g' :: 'e' :: []) (c :: cs) then
      let rest := (c :: cs).drop 6
      let ds := rest.takeWhile Char.isDigit
      match ds, rest.dropWhile Char.isDigit with
      | _ :: _, '>' :: tail => ' ' :: subImageNumF fuel tail
      | _, _ => c :: subImageNumF fuel cs
    else c :: subImageNumF fuel cs

/-- Global substitution of `<image\d+>` placeholders. -/
def subImageNum (s : Str) : Str := subImageNumF s.length s

/-- Transport-header tokens of the `headers` pattern family of
`EmailCleaner.__init__`, each used in a `tok.*\n` substitution. -/
def headerToks : List Str :=
  [("From:".data), ("To:".data), ("Subject:".data), ("Date:".data),
   ("Cc:".data), ("Bcc:".data), ("Reply-To:".data), ("Return-Path:".data),
   ("Message-ID:".data), ("Content-Type:".data),
   ("Content-Transfer-Encoding:".data)]

/-- All pattern-family substitutions of `EmailCleaner.clean_text`, applied
in the insertion order of the `self.patterns` dict: headers, forwarded,
replies, signatures, whitespace, quoted, attachments. -/
def applyPatterns (s0 : Str) : Str :=
  let s := headerToks.foldl (fun t tok => subTokNL tok t) s0
  let s := subDashTokEnd ("Forwarded message".data) s
  let s := subTokEnd ("Begin forwarded message:".data) s
  let s := subTokEnd ("Original Message".data) s
  let s := subChainEnd ("On".data) [("wrote:".data)] s
  let s := subChainEnd ("On".data) [(",".data), ("wrote:".data)] s
  let s := subChainEnd ("From:".data) [("Sent:".data), ("To:".data), ("Subject:".data)] s
  let s := subDashNLEnd s
  let s := subTokEnd ("Best regards,".data) s
  let s := subTokEnd ("Regards,".data) s
  let s := subTokEnd ("Thanks,".data) s
  let s := subTokEnd ("Cheers,".data) s
  let s := subTokEnd ("Sincerely,".data) s
  let s := collapseWS s
  let s := collapseRun '\n' s
  let s := collapseRun '\t' s
  let s := subTokNL (['>']) s
  let s := subTokNL (['|']) s
  let s := subBracketTok ("[image:".data) s
  let s := subBracketTok ("[cid:".data) s
  let s := subImageNum s
  s

/-- Text segments of a markup document, split at tags (model of
BeautifulSoup text extraction for `html.parser`): characters inside
`<…>` are discarded, the remaining text is split at every tag. -/
def soupSegs : Bool → Str → Str → List Str
  | _, cur, [] => [cur.reverse]
  | true, cur, c :: cs =>
    if c = '>' then soupSegs false cur cs else soupSegs true cur cs
  | false, cur, c :: cs =>
    if c = '<' then cur.reverse :: soupSegs true [] cs
    else soupSegs false (c :: cur) cs

/-- Model of `BeautifulSoup(content).get_text(separator=" ", strip=True)`:
strip each text segment, drop empty ones, join with single spaces. -/
def soupGetText (s : Str) : Str :=
  List.intercalate ([' ']) (((soupSegs false [] s).map pyStrip).filter (· ≠ []))

/-- Markup sniff of `clean_text`: `"<html" in content.lower() or "<body" in
content.lower()`. -/
def sniffHTML (s : Str) : Bool :=
  containsCS ("<html".data) (lowerStr s) || containsCS ("<body".data) (lowerStr s)

/-- Shallow embedding of `EmailCleaner.clean_text`: select the text source
by content type (markup is stripped via the soup model), apply all pattern
families, normalize whitespace and strip. -/
def clean_text (content : Str) (contentType : Option Str) : Str :=
  if content = [] then []
  else
    let text :=
      match contentType with
      | some ct =>
        if containsCS ("text/html".data) ct then soupGetText content
        else if containsCS ("text/plain".data) ct then content
        else if sniffHTML content then soupGetText content else content
      | none => if sniffHTML content then soupGetText content else content
    pyStrip (collapseWS (applyPatterns text))

/-- Match of `^[cl]+$` under Python `re` semantics, where `$` also matches
just before a final newline. -/
def matchAllOf (cl : Char → Bool) (s : Str) : Bool :=
  (!s.isEmpty && s.all cl) ||
    (s.getLast? = some '\n' && !s.dropLast.isEmpty && s.dropLast.all cl)

/-- Match of `^[cl]{1,3}$` under Python `re` semantics. -/
def matchUpTo3 (cl : Char → Bool) (s : Str) : Bool :=
  (decide (1 ≤ s.length) && decide (s.length ≤ 3) && s.all cl) ||
    (s.getLast? = some '\n' && decide (1 ≤ s.dropLast.length) &&
      decide (s.dropLast.length ≤ 3) && s.dropLast.all cl)

/-- Shallow embedding of `EmailCleaner.validate_cleaned_content`. -/
def validate_cleaned_content (content : Str) : Bool :=
  if content = [] then false
  else if (pyStrip content).length < 10 then false
  else if matchAllOf (fun c => !isWordCh c) content then false
  else if matchAllOf (fun c => c.isDigit || isWS c) content then false
  else if matchUpTo3 (fun c => c.isAlpha || isWS c) content then false
  else true

/-- Python `str.split()` (no argument): split on whitespace runs, never
producing empty words.  Fuel-driven; the fuel is the string length. -/
def splitWSF : Nat → Str → List Str
  | 0, _ => []
  | _ + 1, [] => []
  | fuel + 1, c :: cs =>
    if isWS c then splitWSF fuel cs
    else ((c :: cs).takeWhile (fun d => !isWS d)) ::
      splitWSF fuel ((c :: cs).dropWhile (fun d => !isWS d))

/-- Python `str.split()` on whitespace. -/
def splitWS (s : Str) : List Str := splitWSF (s.length + 1) s

/-- Python `str.split(",")`: split at every comma, keeping empty pieces. -/
def splitComma (s : Str) : List Str := s.splitOn ','

/-- Reply/forward subject tokens removed by `EmailCleaner._clean_subject`. -/
def subjectToks : List Str :=
  [("re:".data), ("fw:".data), ("fwd:".data), ("aw:".data), ("tr:".data), ("r:".data)]

/-- One pass of the inner `for` loop of `_clean_subject`: every token that
matches the (current) head of the subject is stripped in turn. -/
def subjectStripPass (s : Str) : Str :=
  subjectToks.foldl (fun t p => if startsCS p t then pyStrip (t.drop p.length) else t) s

/-- The `while` loop of `_clean_subject`, fuel-driven. -/
def cleanSubjectLoop : Nat → Str → Str
  | 0, s => s
  | fuel + 1, s =>
    if subjectToks.any (fun p => startsCS p s) then cleanSubjectLoop fuel (subjectStripPass s)
    else s

/-- Shallow embedding of `EmailCleaner._clean_subject`: lower-case and
strip, then repeatedly remove leading reply/forward tokens. -/
def clean_subject (subject : Str) : Str :=
  let s := pyStrip (lowerStr subject)
  pyStrip (cleanSubjectLoop (s.length + 1) s)

/-- Address characters of the permissive pattern `[\w\.-]+@[\w\.-]+\.\w+`. -/
def isAddrCh (c : Char) : Bool := isWordCh c || c = '.' || c = '-'

/-- Greedy match of the domain tail `[\w\.-]+\.\w+` inside the maximal
address-character run `dom` that follows the `@`: backtracking picks the
last dot of `dom` that is preceded by at least one character and followed
by a word character; the trailing `\w+` is the maximal word run after it. -/
def domMatch (dom : Str) : Option Str :=
  match ((List.range dom.length).filter fun j =>
      decide (1 ≤ j) && (dom.get? j == some '.') &&
        ((dom.get? (j + 1)).elim false isWordCh)).getLast? with
  | some j => some (dom.take (j + 1) ++ (dom.drop (j + 1)).takeWhile isWordCh)
  | none => none

/-- Match of `[\w\.-]+@[\w\.-]+\.\w+` anchored at the head of `s`: a
nonempty address-character run, then `@`, then a matching domain tail. -/
def matchEmailAt (s : Str) : Option Str :=
  let loc := s.takeWhile isAddrCh
  if loc.isEmpty then none
  else
    match s.drop loc.length with
    | '@' :: rest =>
      match domMatch (rest.takeWhile isAddrCh) with
      | some dom => some (loc ++ '@' :: dom)
      | none => none
    | _ => none

/-- Leftmost match of the permissive address pattern (Python `re.search`). -/
def emailSearch : Str → Option Str
  | [] => none
  | c :: cs =>
    match matchEmailAt (c :: cs) with
    | some m => some m
    | none => emailSearch cs

/-- Shallow embedding of `EmailCleaner._extract_email`: the leftmost match
of the permissive pattern, lower-cased; `none` when nothing matches. -/
def extract_email (address : Str) : Option Str :=
  (emailSearch address).map lowerStr

/-- One MIME part, as surfaced by the Python `email` parser: the values
`get_content_type()`, the declared charset, `get("content-transfer-encoding")`
and `get_payload()` that `process_email_part` reads.  The declared charset is
carried so that charset-related properties can be stated; the source code
never reads it. -/
structure EmailPart where
  contentType : Str
  charset : Option Str
  transferEnc : Option Str
  payload : Str
  deriving DecidableEq

/-- Body structure returned by `message_from_string`: either a single part
or a multipart container whose textual leaves `process_email` walks. -/
inductive EmailBody where
  | single (p : EmailPart)
  | multi (ps : List EmailPart)
  deriving DecidableEq

/-- Parsed form of the raw body, modelling the header lookups that
`extract_thread_info` performs on `message_from_string(email_data["body"])`
(each `get` defaults to the empty string). -/
structure ParsedEmail where
  messageIdH : Str
  referencesH : Str
  inReplyToH : Str
  toH : Str
  ccH : Str
  body : EmailBody
  deriving DecidableEq

/-- The `email_data` dictionary consumed by `EmailCleaner.process_email`:
the `from` key (absent or a string), the subject, the raw `body` string,
and the parse of that body. -/
structure EmailData where
  sender : Option Str
  subject : Str
  rawBody : Str
  parsed : ParsedEmail
  deriving DecidableEq

/-- Thread-resolution result of `extract_thread_info`.  Participants form a
Python `set` that may contain `None` (modelled as a duplicate-free list of
`Option Str`). -/
structure ThreadInfoX where
  messageId : Str
  threadId : Option Str
  inReplyTo : Str
  references : List Str
  isReply : Bool
  subjectRoot : Str
  participants : List (Option Str)
  deriving DecidableEq

/-- Python `set.add` on a duplicate-free list. -/
def setAdd (l : List (Option Str)) (x : Option Str) : List (Option Str) :=
  if x ∈ l then l else l ++ [x]

/-- The `Message-ID` extraction of `extract_thread_info`: strip angle
brackets; if the result is empty use the timestamp `now` (the code calls
`datetime.now().timestamp()`, modelled as an explicit clock input). -/
def messageIdOf (now : Str) (e : EmailData) : Str :=
  let mid := stripCharSet ['<', '>'] e.parsed.messageIdH
  if mid = [] then now else mid

/-- The `References` extraction: whitespace split, then angle-bracket strip
of every nonempty piece (the emptiness filter runs before the strip, as in
the source list comprehension). -/
def referencesOf (e : EmailData) : List Str :=
  ((splitWS e.parsed.referencesH).filter (· ≠ [])).map (stripCharSet ['<', '>'])

/-- The `In-Reply-To` extraction: angle-bracket strip of the header. -/
def inReplyToOf (e : EmailData) : Str :=
  stripCharSet ['<', '>'] e.parsed.inReplyToH

/-- The `is_reply` flag: `bool(in_reply_to or references)`. -/
def isReplyOf (e : EmailData) : Bool :=
  !(inReplyToOf e).isEmpty || !(referencesOf e).isEmpty

/-- The thread-id determination of `extract_thread_info`:
`references[0] if references else in_reply_to` when `is_reply`, otherwise
the message id. -/
def threadIdOf (now : Str) (e : EmailData) : Option Str :=
  if isReplyOf e then
    match referencesOf e with
    | r :: _ => some r
    | [] => some (inReplyToOf e)
  else some (messageIdOf now e)

/-- Fold one address string into the participant set: add the extracted
address only when the extraction result is truthy (To/Cc loop body). -/
def addIfMatch (acc : List (Option Str)) (a : Str) : List (Option Str) :=
  match extract_email a with
  | some r => if r = [] then acc else setAdd acc (some r)
  | none => acc

/-- The participant-set construction of `extract_thread_info`: the sender
result is added without a `None` check whenever the `from` value is truthy;
To and Cc entries are comma-split and only truthy extractions are added. -/
def participantsOf (e : EmailData) : List (Option Str) :=
  let p0 : List (Option Str) := []
  let p1 :=
    match e.sender with
    | some f => if f = [] then p0 else setAdd p0 (extract_email f)
    | none => p0
  let p2 :=
    if e.parsed.toH = [] then p1 else (splitComma e.parsed.toH).foldl addIfMatch p1
  if e.parsed.ccH = [] then p2 else (splitComma e.parsed.ccH).foldl addIfMatch p2

/-- Shallow embedding of `EmailCleaner.extract_thread_info` (non-raising
path; every step below is total). -/
def extract_thread_info (now : Str) (e : EmailData) : ThreadInfoX where
  messageId := messageIdOf now e
  threadId := threadIdOf now e
  inReplyTo := inReplyToOf e
  references := referencesOf e
  isReply := isReplyOf e
  subjectRoot := clean_subject e.subject
  participants := participantsOf e

/-- Hexadecimal digit value, as accepted by `binascii.a2b_qp`. -/
def hexVal (c : Char) : Option Nat :=
  if '0' ≤ c && c ≤ '9' then some (c.toNat - 48)
  else if 'A' ≤ c && c ≤ 'F' then some (c.toNat - 55)
  else if 'a' ≤ c && c ≤ 'f' then some (c.toNat - 87)
  else none

/-- Quoted-printable decoding to bytes (model of `binascii.a2b_qp`):
`=XY` hex escapes become one byte, `=` before a line break is a soft
break, an invalid `=` sequence is emitted literally. -/
def qpDecF : Nat → Str → List Nat
  | 0, _ => []
  | _ + 1, [] => []
  | fuel + 1, '=' :: rest =>
    match rest with
    | '\n' :: tail => qpDecF fuel tail
    | '\r' :: '\n' :: tail => qpDecF fuel tail
    | a :: b :: tail =>
      match hexVal a, hexVal b with
      | some x, some y => (16 * x + y) :: qpDecF fuel tail
      | _, _ => 61 :: qpDecF fuel rest
    | _ => 61 :: qpDecF fuel rest
  | fuel + 1, c :: cs => c.toNat :: qpDecF fuel cs

/-- Model of `quopri.decodestring` on a `str` payload: `binascii` raises
on non-ASCII input (the exception makes the whole part yield `""`), so
non-ASCII payloads decode to `none`. -/
def qpDecode (s : Str) : Option (List Nat) :=
  if s.all (fun c => c.toNat < 128) then some (qpDecF s.length s) else none

/-- Value of a base64 alphabet character. -/
def b64Val (c : Char) : Option Nat :=
  if 'A' ≤ c && c ≤ 'Z' then some (c.toNat - 65)
  else if 'a' ≤ c && c ≤ 'z' then some (c.toNat - 71)
  else if '0' ≤ c && c ≤ '9' then some (c.toNat + 4)
  else if c = '+' then some 62
  else if c = '/' then some 63
  else none

/-- Decode base64 quads to bytes; `=` padding may close the final quad.
Any malformed remainder is a decode error (`binascii.Error`). -/
def b64Core : List Char → Option (List Nat)
  | [] => some []
  | a :: b :: c :: d :: rest =>
    match b64Val a, b64Val b with
    | some va, some vb =>
      if c = '=' && d = '=' && rest.isEmpty then
        some [va * 4 + vb / 16]
      else
        match b64Val c with
        | some vc =>
          if d = '=' && rest.isEmpty then
            some [va * 4 + vb / 16, (vb % 16) * 16 + vc / 4]
          else
            match b64Val d, b64Core rest with
            | some vd, some tail =>
              some ((va * 4 + vb / 16) :: ((vb % 16) * 16 + vc / 4) ::
                ((vc % 4) * 64 + vd) :: tail)
            | _, _ => none
        | none => none
    | _, _ => none
  | _ => none

/-- Model of `base64.b64decode` on a `str` payload: non-ASCII input raises
(yielding `none`), characters outside the alphabet and padding are
discarded, then quads are decoded; a leftover incomplete quad raises. -/
def b64Decode (s : Str) : Option (List Nat) :=
  if s.all (fun c => c.toNat < 128) then
    b64Core (s.filter (fun c => (b64Val c).isSome || c = '='))
  else none

/-- Is `b` a UTF-8 continuation byte? -/
def isContByte (b : Nat) : Bool := 128 ≤ b && b < 192

/-- The replacement character U+FFFD. -/
def repChar : Char := Char.ofNat 0xFFFD

/-- UTF-8 decoding with replacement (model of `bytes.decode("utf-8",
errors="replace")`): each maximal subpart of an ill-formed sequence is
replaced by a single U+FFFD, as CPython does. -/
def utf8RepF : Nat → List Nat → Str
  | 0, _ => []
  | _ + 1, [] => []
  | fuel + 1, b :: rest =>
    if b < 128 then Char.ofNat b :: utf8RepF fuel rest
    else if 194 ≤ b && b ≤ 223 then
      match rest with
      | b2 :: tail =>
        if isContByte b2 then Char.ofNat ((b - 192) * 64 + (b2 - 128)) :: utf8RepF fuel tail
        else repChar :: utf8RepF fuel rest
      | [] => repChar :: utf8RepF fuel []
    else if 224 ≤ b && b ≤ 239 then
      let lo2 : Nat := if b = 224 then 160 else 128
      let hi2 : Nat := if b = 237 then 159 else 191
      match rest with
      | b2 :: b3 :: tail =>
        if lo2 ≤ b2 && b2 ≤ hi2 then
          if isContByte b3 then
            Char.ofNat ((b - 224) * 4096 + (b2 - 128) * 64 + (b3 - 128)) :: utf8RepF fuel tail
          else repChar :: utf8RepF fuel (b3 :: tail)
        else repChar :: utf8RepF fuel (b2 :: b3 :: tail)
      | [b2] =>
        if lo2 ≤ b2 && b2 ≤ hi2 then repChar :: utf8RepF fuel []
        else repChar :: utf8RepF fuel [b2]
      | [] => repChar :: utf8RepF fuel []
    else if 240 ≤ b && b ≤ 244 then
      let lo2 : Nat := if b = 240 then 144 else 128
      let hi2 : Nat := if b = 244 then 143 else 191
      match rest with
      | b2 :: b3 :: b4 :: tail =>
        if lo2 ≤ b2 && b2 ≤ hi2 then
          if isContByte b3 then
            if isContByte b4 then
              Char.ofNat ((b - 240) * 262144 + (b2 - 128) * 4096 +
                (b3 - 128) * 64 + (b4 - 128)) :: utf8RepF fuel tail
            else repChar :: utf8RepF fuel (b4 :: tail)
          else repChar :: utf8RepF fuel (b3 :: b4 :: tail)
        else repChar :: utf8RepF fuel (b2 :: b3 :: b4 :: tail)
      | b2 :: b3 :: tail =>
        if lo2 ≤ b2 && b2 ≤ hi2 then
          if isContByte b3 then repChar :: utf8RepF fuel tail
          else repChar :: utf8RepF fuel (b3 :: tail)
        else repChar :: utf8RepF fuel (b2 :: b3 :: tail)
      | [b2] =>
        if lo2 ≤ b2 && b2 ≤ hi2 then repChar :: utf8RepF fuel []
        else repChar :: utf8RepF fuel [b2]
      | [] => repChar :: utf8RepF fuel []
    else repChar :: utf8RepF fuel rest

/-- UTF-8 decoding with replacement characters. -/
def utf8Replace (bs : List Nat) : Str := utf8RepF bs.length bs

/-- Modelled from the spec: decoding bytes "using the part's declared
character set", instantiated at the charset `latin-1` (each byte is the
code point of one character).  The source never performs this step; the
definition exists to compare the code's behaviour with the specified
one. -/
def latin1Decode (bs : List Nat) : Str := bs.map Char.ofNat

/-- The transfer-decoding step of `process_email_part`: quoted-printable
and base64 payloads are decoded to bytes and then, unconditionally, to
text as UTF-8 with replacement; any other (or missing) encoding leaves
the payload unchanged.  `none` models the exception path (the caller
returns the empty string). -/
def decodeTransfer (p : EmailPart) : Option Str :=
  if p.transferEnc = some ("quoted-printable".data) then (qpDecode p.payload).map utf8Replace
  else if p.transferEnc = some ("base64".data) then (b64Decode p.payload).map utf8Replace
  else some p.payload

/-- Shallow embedding of `EmailCleaner.process_email_part`: decode the
payload, then clean it; a decode failure yields the empty string. -/
def process_email_part (p : EmailPart) : Str :=
  match decodeTransfer p with
  | some content => clean_text content (some p.contentType)
  | none => []

/-- The main type of a part (`get_content_maintype()`). -/
def mainType (p : EmailPart) : Str := p.contentType.takeWhile (· ≠ '/')

/-- The cleaned fragments collected by `process_email`: in the multipart
walk only textual parts are processed and only truthy results kept; a
single-part body is processed unconditionally. -/
def cleanedPartsOf (e : EmailData) : List Str :=
  match e.parsed.body with
  | .multi ps =>
    ((ps.filter (fun p => mainType p = ("text".data))).map process_email_part).filter (· ≠ [])
  | .single p => [process_email_part p]

/-- The combined cleaned content, `" ".join(cleaned_parts)`. -/
def combinedCleaned (e : EmailData) : Str :=
  List.intercalate ([' ']) (cleanedPartsOf e)

/-- The reply-context marker prepended by `process_email` when the message
is a reply. -/
def replyContext (ti : ThreadInfoX) : Str :=
  ("[REPLY to thread: ".data) ++ ti.subjectRoot ++ ("] ".data) ++
    (if ti.inReplyTo = [] then [] else ("[In reply to: ".data) ++ ti.inReplyTo ++ ("] ".data))

/-- Shallow embedding of the `cleaned_summary` value computed by
`EmailCleaner.process_email`: combine the cleaned parts, fall back to the
raw body when validation fails, then prepend the reply context for
replies. -/
def process_email (now : Str) (e : EmailData) : Str :=
  let ti := extract_thread_info now e
  let cleaned := combinedCleaned e
  let cleaned := if validate_cleaned_content cleaned then cleaned else e.rawBody
  if ti.isReply then replyContext ti ++ cleaned else cleaned

/-- The `email_data` dictionary as consumed by `SQLiteDatabase.save_email`:
the keys it reads, plus the recipient and cc lists that are present in the
dictionary (and stored inside `raw_data`) but never read by the thread
update. -/
structure EmailRec where
  idGiven : Option Str
  sender : Option Str
  subject : Option Str
  body : Option Str
  date : Option Str
  threadId : Option Str
  inReplyTo : Option Str
  references : List Str
  recipients : List Str
  ccList : List Str
  deriving DecidableEq

/-- One row of the `emails` table. -/
structure EmailRow where
  id : Str
  sender : Option Str
  subject : Option Str
  body : Option Str
  receivedDate : Option Str
  threadId : Option Str
  inReplyTo : Option Str
  referencesJ : List Str
  deriving DecidableEq

/-- One row of the `threads` table; `participants` is the JSON list column
(which may contain `null`). -/
@[ext]
structure ThreadRow where
  threadId : Str
  subject : Option Str
  participants : List (Option Str)
  lastUpdated : Str
  messageCount : Nat
  deriving DecidableEq

/-- The database state: the `emails` and `threads` tables. -/
structure DB where
  emails : List EmailRow
  threads : List ThreadRow
  deriving DecidableEq

/-- The email row inserted by `save_email`; the id defaults to the current
timestamp when the record carries none. -/
def mkEmailRow (now : Str) (e : EmailRec) : EmailRow :=
  ⟨e.idGiven.getD now, e.sender, e.subject, e.body, e.date, e.threadId,
    e.inReplyTo, e.references⟩

/-- `SELECT * FROM threads WHERE thread_id = t` (first matching row). -/
def findThread (ts : List ThreadRow) (t : Str) : Option ThreadRow :=
  ts.find? (fun r => r.threadId = t)

/-- Shallow embedding of `SQLiteDatabase._update_participants`: append the
new participant unless already present by equality. -/
def update_participants (existing : List (Option Str)) (p : Option Str) : List (Option Str) :=
  if p ∈ existing then existing else existing ++ [p]

/-- The `UPDATE threads …` row transformation of `_update_thread_info`:
increment the count, refresh the timestamp, and fold the sender into the
participant list. -/
def bumpThread (now : Str) (e : EmailRec) (r : ThreadRow) : ThreadRow :=
  { r with
    messageCount := r.messageCount + 1
    lastUpdated := now
    participants := update_participants r.participants e.sender }

/-- Shallow embedding of `SQLiteDatabase._update_thread_info`: a falsy
thread id leaves the table untouched; otherwise the existing row is
updated or a fresh row is created with participants `[sender]` and
count 1. -/
def update_thread_info (now : Str) (ts : List ThreadRow) (e : EmailRec) : List ThreadRow :=
  match e.threadId with
  | none => ts
  | some t =>
    if t = [] then ts
    else
      match findThread ts t with
      | some _ => ts.map (fun r => if r.threadId = t then bumpThread now e r else r)
      | none => ts ++ [⟨t, e.subject, [e.sender], now, 1⟩]

/-- Error raised by the SQLite layer: `sqlite3.OperationalError:
near "<token>": syntax error`. -/
inductive DbError where
  | operationalError (near : Str)
  deriving DecidableEq

/-- The column names of the `emails` table, used both by the
`CREATE TABLE emails` statement of `setup_tables` (database.py:91-103)
and by the `INSERT INTO emails (...)` statement of `save_email`
(database.py:151-155), all unquoted. -/
def emailsColumns : List Str :=
  [("id".data), ("sender".data), ("subject".data), ("body".data),
   ("received_date".data), ("thread_id".data), ("in_reply_to".data),
   ("references".data), ("raw_data".data)]

/-- Reserved SQLite keywords that the sqlite parser rejects as unquoted
column names; of the identifiers this schema uses, only `references`
(the foreign-key keyword) is reserved, and sqlite3 raises
`OperationalError: near "references": syntax error` on both statements. -/
def sqliteReservedColumnNames : List Str := [("references".data)]

/-- The first reserved identifier of a column list — the token the
sqlite parser chokes on, or `none` when the statement is valid. -/
def firstReserved (cols : List Str) : Option Str :=
  cols.find? (fun c => c ∈ sqliteReservedColumnNames)

/-- Shallow embedding of `SQLiteDatabase.setup_tables`: the very first
`CREATE TABLE emails (...)` names the reserved column `references`, so
`cursor.execute` raises before any table exists (the constructor calls
this, so the class cannot even be built). -/
def setup_tables : Except DbError Unit :=
  match firstReserved emailsColumns with
  | some kw => .error (.operationalError kw)
  | none => .ok ()

/-- Shallow embedding of `SQLiteDatabase.save_email`: the INSERT's
unquoted column list contains the reserved keyword `references`, so
`cursor.execute` raises `OperationalError` before the first
`conn.commit()` and nothing is written; on the (unreachable)
valid-statement path the email row is inserted, the thread table is
updated, and the id is returned. -/
def save_email (now : Str) (db : DB) (e : EmailRec) : Except DbError (Str × DB) :=
  match firstReserved emailsColumns with
  | some kw => .error (.operationalError kw)
  | none =>
    let row := mkEmailRow now e
    .ok (row.id, ⟨db.emails ++ [row], update_thread_info now db.threads e⟩)

/-- The sequence of database states made durable by one `save_email`
call.  The INSERT raises before the first `conn.commit()`, so no state is
ever committed; had the statement been valid, `conn.commit()` would run
once after the email insert and again after the thread update, making two
states durable in that order. -/
def saveEmailCommits (now : Str) (db : DB) (e : EmailRec) : List DB :=
  match firstReserved emailsColumns with
  | some _ => []
  | none =>
    let afterInsert : DB := ⟨db.emails ++ [mkEmailRow now e], db.threads⟩
    [afterInsert, ⟨afterInsert.emails, update_thread_info now afterInsert.threads e⟩]

/-- Fold a batch of records through `save_email` (same clock value); the
first raised `OperationalError` propagates and aborts the batch. -/
def saveEmailFold (now : Str) (db : DB) (msgs : List EmailRec) : Except DbError DB :=
  msgs.foldlM (fun d e => (save_email now d e).map (fun p => p.2)) db

/-- Property preserved by the participant folds: every non-null entry is a
nonempty lower-case string containing an `@`. -/
def GoodEntry (x : Str) : Prop := x ≠ [] ∧ '@' ∈ x ∧ lowerStr x = x

/-- Every whitespace character of `s` is a plain space. -/
def spaceOnly (s : Str) : Bool := s.all (fun c => !isWS c || c = ' ')

/-- No two consecutive spaces occur in `s`. -/
def singleSpaced : Str → Bool
  | [] => true
  | [_] => true
  | a :: b :: rest => !(a = ' ' && b = ' ') && singleSpaced (b :: rest)

/-- Neither end of `s` is whitespace. -/
def strippedB (s : Str) : Bool :=
  (s.head?.elim true fun c => !isWS c) && (s.getLast?.elim true fun c => !isWS c)

/-! Concrete inputs used by counterexamples and witnesses. -/

/-- A fixed clock value standing for `datetime.now().timestamp()`. -/
def clock0 : Str := ("1700000000.123".data)

/-- The empty database. -/
def dbEmpty : DB := ⟨[], []⟩

/-- A concrete email record carrying thread id `T1`. -/
def recT : EmailRec :=
  ⟨some ("e1".data), some ("a@x.com".data), some ("Hello".data),
    some ("body text".data), some ("2024-01-01".data), some ("T1".data),
    none, [], [], []⟩

/-- A second record in thread `T1` from a different sender. -/
def recB2 : EmailRec :=
  { recT with idGiven := some ("e2".data), sender := some ("b@x.com".data) }

/-- A record with no thread id. -/
def recNoThread : EmailRec :=
  { recT with idGiven := some ("e9".data), threadId := none }

/-- A record for thread `T6` with an explicit recipient list. -/
def rec6 : EmailRec :=
  { recT with
    idGiven := some ("e6".data)
    threadId := some ("T6".data)
    recipients := [("b@x.com".data)] }

/-- A quoted-printable part declaring charset `latin-1`, whose payload
`=E9` denotes the byte 0xE9 (the letter é in latin-1). -/
def partC8 : EmailPart :=
  ⟨("text/plain".data), some ("latin-1".data),
    some ("quoted-printable".data), ("=E9".data)⟩

/-- A quoted-printable part with a non-ASCII payload (the decoder raises,
so the part yields the empty string). -/
def partC8b : EmailPart :=
  ⟨("text/plain".data), none, some ("quoted-printable".data), ("é".data)⟩

/-- A parsed reply whose single part cleans to the invalid text `...---`. -/
def parsedC4 : ParsedEmail :=
  ⟨("<m1>".data), [], ("<abc123>".data), [], [],
    EmailBody.single ⟨("text/plain".data), none, none, ("...---".data)⟩⟩

/-- A reply email whose combined cleaned content fails validation. -/
def eC4 : EmailData :=
  ⟨some ("alice@x.com".data), ("Re: Budget".data),
    ("long raw original body".data), parsedC4⟩

/-- A message whose references chain and in-reply-to value coincide. -/
def eC3 : EmailData :=
  ⟨some ("alice@x.com".data), ("subj".data), ("raw".data),
    ⟨("<m3>".data), ("<a>".data), ("<a>".data), [], [],
      EmailBody.single ⟨("text/plain".data), none, none, ("hi all".data)⟩⟩⟩

/-- A message with distinct references chain and in-reply-to value. -/
def eC3w : EmailData :=
  ⟨some ("alice@x.com".data), ("subj".data), ("raw".data),
    ⟨("<m3>".data), ("<x>".data), ("<y>".data), [], [],
      EmailBody.single ⟨("text/plain".data), none, none, ("hi all".data)⟩⟩⟩

/-- A message whose `from` value contains no address pattern. -/
def eC9 : EmailData :=
  ⟨some ("Undisclosed recipients".data), ("s".data), ("raw".data),
    ⟨[], [], [], [], [],
      EmailBody.single ⟨("text/plain".data), none, none, []⟩⟩⟩

/-- A message whose `from` value contains an upper-case address. -/
def eC9w : EmailData :=
  { eC9 with sender := some ("Bob <BOB@EX.com>".data) }

/-- Text with a quoted line: the quoted-line patterns never fire because
whitespace collapse runs before them. -/
def sC5 : Str := ("> quoted reply line\nHello world content".data)

/-- Text on which cleaning is not idempotent: removing `[cid:x]` splices
`original` and `message` into a forwarding-banner token that the second
pass removes. -/
def sC7 : Str := ("say original[cid:x] message today friend".data)

/-- Already-clean text with no pattern triggers. -/
def sC7fix : Str := ("hello there my good friend".data)

end EmailCore


namespace EmailCore

/-! Helper lemmas about the thread store. -/

theorem mem_update_participants (l : List (Option Str)) (y x : Option Str) :
    x ∈ update_participants l y ↔ x ∈ l ∨ x = y := by
  unfold update_participants
  by_cases h : y ∈ l
  · rw [if_pos h]
    constructor
    · intro hx
      exact Or.inl hx
    · rintro (hx | rfl)
      · exact hx
      · exact h
  · rw [if_neg h]
    simp

theorem mem_foldl_update_participants (l : List (Option Str)) :
    ∀ (init : List (Option Str)) (x : Option Str),
      x ∈ l.foldl update_participants init ↔ x ∈ init ∨ x ∈ l := by
  induction l with
  | nil => simp
  | cons a l ih =>
    intro init x
    rw [List.foldl_cons, ih, mem_update_participants]
    simp only [List.mem_cons]
    tauto

theorem findThread_append_of_none (ts : List ThreadRow) (t : Str) (r : ThreadRow)
    (h : findThread ts t = none) (hr : r.threadId = t) :
    findThread (ts ++ [r]) t = some r := by
  induction ts with
  | nil => simp [findThread, List.find?, hr]
  | cons a ts ih =>
    unfold findThread at h ⊢
    rw [List.cons_append]
    by_cases ha : a.threadId = t
    · rw [List.find?_cons_of_pos _ (by simpa using ha)] at h
      exact absurd h (by simp)
    · rw [List.find?_cons_of_neg _ (by simpa using ha)] at h ⊢
      exact ih h

theorem findThread_map_ite (ts : List ThreadRow) (t : Str) (f : ThreadRow → ThreadRow)
    (hf : ∀ r, (f r).threadId = r.threadId) :
    findThread (ts.map fun r => if r.threadId = t then f r else r) t =
      (findThread ts t).map f := by
  induction ts with
  | nil => simp [findThread]
  | cons a ts ih =>
    unfold findThread at ih ⊢
    by_cases ha : a.threadId = t
    · rw [List.map_cons, if_pos ha, List.find?_cons_of_pos _ (by simp [hf, ha]),
        List.find?_cons_of_pos _ (by simpa using ha)]
      rfl
    · rw [List.map_cons, if_neg ha, List.find?_cons_of_neg _ (by simpa using ha),
        List.find?_cons_of_neg _ (by simpa using ha)]
      exact ih

theorem bumpThread_threadId (now : Str) (e : EmailRec) (r : ThreadRow) :
    (bumpThread now e r).threadId = r.threadId := rfl

theorem foldl_bump_messageCount (now : Str) (msgs : List EmailRec) :
    ∀ r : ThreadRow,
      (msgs.foldl (fun r m => bumpThread now m r) r).messageCount =
        r.messageCount + msgs.length := by
  induction msgs with
  | nil => simp
  | cons m rest ih =>
    intro r
    rw [List.foldl_cons, ih]
    simp [bumpThread]
    omega

theorem foldl_bump_participants (now : Str) (msgs : List EmailRec) :
    ∀ r : ThreadRow,
      (msgs.foldl (fun r m => bumpThread now m r) r).participants =
        (msgs.map (·.sender)).foldl update_participants r.participants := by
  induction msgs with
  | nil => simp
  | cons m rest ih =>
    intro r
    rw [List.foldl_cons, ih]
    rfl

theorem foldl_bump_threadId (now : Str) (msgs : List EmailRec) :
    ∀ r : ThreadRow,
      (msgs.foldl (fun r m => bumpThread now m r) r).threadId = r.threadId := by
  induction msgs with
  | nil => simp
  | cons m rest ih =>
    intro r
    rw [List.foldl_cons, ih]
    rfl

theorem foldl_bump_subject (now : Str) (msgs : List EmailRec) :
    ∀ r : ThreadRow,
      (msgs.foldl (fun r m => bumpThread now m r) r).subject = r.subject := by
  induction msgs with
  | nil => simp
  | cons m rest ih =>
    intro r
    rw [List.foldl_cons, ih]
    rfl

theorem foldl_bump_lastUpdated (now : Str) (msgs : List EmailRec) :
    ∀ r : ThreadRow, r.lastUpdated = now →
      (msgs.foldl (fun r m => bumpThread now m r) r).lastUpdated = now := by
  induction msgs with
  | nil => exact fun r h => h
  | cons m rest ih =>
    intro r _
    rw [List.foldl_cons]
    exact ih _ rfl

theorem update_thread_existing (now : Str) (ts : List ThreadRow) (e : EmailRec)
    (t : Str) (row : ThreadRow) (he : e.threadId = some t) (ht : t ≠ [])
    (hrow : findThread ts t = some row) :
    update_thread_info now ts e =
      ts.map fun r => if r.threadId = t then bumpThread now e r else r := by
  unfold update_thread_info
  rw [he]
  simp only [if_neg ht, hrow]

theorem findThread_update_existing (now : Str) (ts : List ThreadRow) (e : EmailRec)
    (t : Str) (row : ThreadRow) (he : e.threadId = some t) (ht : t ≠ [])
    (hrow : findThread ts t = some row) :
    findThread (update_thread_info now ts e) t = some (bumpThread now e row) := by
  rw [update_thread_existing now ts e t row he ht hrow,
    findThread_map_ite ts t _ (fun r => bumpThread_threadId now e r), hrow]
  rfl

/-! Claims about the thread store. -/

/-- C10: `save_email` cannot insert at all — the INSERT names the
reserved column `references`, so the call raises `OperationalError`
instead of storing the message row and returning its id; evaluated at a
concrete record with no thread id. -/
theorem save_email_raises_no_insert :
    save_email clock0 dbEmpty recNoThread =
      .error (DbError.operationalError ("references".data)) ∧
    ("references".data) ∈ emailsColumns ∧
    ("references".data) ∈ sqliteReservedColumnNames := by
  refine ⟨by rfl, by decide, by decide⟩

/-- C1: `save_email` never reaches a commit: the INSERT raises on the
reserved column name `references` before the first `conn.commit()`, so no
database state is ever made durable — nothing is persisted, atomically or
otherwise (and `setup_tables` fails on the same token, so the class
cannot even be constructed). -/
theorem save_email_never_commits :
    saveEmailCommits clock0 dbEmpty recT = [] ∧
    save_email clock0 dbEmpty recT =
      .error (DbError.operationalError ("references".data)) ∧
    setup_tables = .error (DbError.operationalError ("references".data)) := by
  refine ⟨by rfl, by rfl, by rfl⟩

/-- C2: the claimed post-insert aggregate state is never realized — the
batch fold raises `OperationalError` on the first INSERT — although the
thread-update logic in isolation computes exactly the claimed aggregate
for the two records (count 2, both senders deduplicated). -/
theorem thread_aggregate_never_reached :
    saveEmailFold clock0 dbEmpty [recT, recB2] =
      .error (DbError.operationalError ("references".data)) ∧
    findThread (update_thread_info clock0 (update_thread_info clock0 [] recT) recB2)
        ("T1".data) =
      some ⟨("T1".data), recT.subject, [some ("a@x.com".data), some ("b@x.com".data)],
        clock0, 2⟩ := by
  refine ⟨by rfl, by decide⟩

/-- C6 (amended): the thread update never consults the recipient or cc
lists of the record — participants grow only by the sender. -/
theorem thread_update_ignores_recipients (now : Str) (ts : List ThreadRow) (e : EmailRec)
    (xs ys : List Str) :
    update_thread_info now ts { e with recipients := xs, ccList := ys } =
      update_thread_info now ts e ∧
    ∀ (init : List (Option Str)) (s : Option Str),
      s ∈ update_participants init e.sender ↔ s ∈ init ∨ s = e.sender := by
  constructor
  · cases e
    rfl
  · intro init s
    exact mem_update_participants init e.sender s

/-- C6 counterexample: inserting a record whose recipient list contains
`b@x.com` creates a thread whose participants omit that recipient, so the
participants field is not the union of sender, recipient, and cc
addresses. -/
theorem thread_participants_not_union_cex :
    ("b@x.com".data) ∈ rec6.recipients ∧
    findThread (update_thread_info clock0 [] rec6) ("T6".data) =
      some ⟨("T6".data), rec6.subject, [some ("a@x.com".data)], clock0, 1⟩ ∧
    some ("b@x.com".data) ∉ [some ("a@x.com".data)] := by
  refine ⟨by decide, by decide, by decide⟩

end EmailCore

namespace EmailCore

/-! Claims about the thread resolver. -/

/-- C3 (amended): the resolved thread id is the first reference-chain
element when the chain is nonempty (which may happen to coincide with the
in-reply-to value), otherwise the in-reply-to value when nonempty,
otherwise the message identity. -/
theorem thread_id_resolution (now : Str) (e : EmailData) :
    (∀ r rs, referencesOf e = r :: rs → threadIdOf now e = some r) ∧
    (referencesOf e = [] → inReplyToOf e ≠ [] → threadIdOf now e = some (inReplyToOf e)) ∧
    (referencesOf e = [] → inReplyToOf e = [] → threadIdOf now e = some (messageIdOf now e)) := by
  refine ⟨?_, ?_, ?_⟩
  · intro r rs h
    unfold threadIdOf isReplyOf
    rw [h]
    simp
  · intro h1 h2
    unfold threadIdOf isReplyOf
    rw [h1]
    simp [h2]
  · intro h1 h2
    unfold threadIdOf isReplyOf
    rw [h1, h2]
    simp

/-- Witness for the resolution rule at a message with references `[x]` and
in-reply-to `y`. -/
theorem thread_id_resolution_witness :
    threadIdOf clock0 eC3w = some ("x".data) :=
  (thread_id_resolution clock0 eC3w).1 ("x".data) [] (by decide)

/-- C3 counterexample: when the first reference-chain element coincides
with the in-reply-to value, the resolved thread id does equal the
in-reply-to value, refuting the claim that it never does. -/
theorem thread_id_equals_in_reply_to_cex :
    referencesOf eC3 = [("a".data)] ∧
    inReplyToOf eC3 = ("a".data) ∧
    inReplyToOf eC3 ≠ [] ∧
    threadIdOf clock0 eC3 = some (inReplyToOf eC3) := by
  refine ⟨by decide, by decide, by decide, by decide⟩

/-! Claims about the fallback on invalid cleaned content. -/

theorem validate_ne_nil (c : Str) (h : validate_cleaned_content c = true) : c ≠ [] := by
  intro hc
  rw [hc] at h
  simp [validate_cleaned_content] at h

/-- C4 (amended): when the combined cleaned content fails validation, the
stored summary is the raw body, prefixed with the reply-context marker when
the message is a reply; for a nonempty raw body the stored summary is never
empty. -/
theorem fallback_keeps_raw (now : Str) (e : EmailData) :
    (validate_cleaned_content (combinedCleaned e) = false →
      process_email now e =
        if (extract_thread_info now e).isReply then
          replyContext (extract_thread_info now e) ++ e.rawBody
        else e.rawBody) ∧
    (e.rawBody ≠ [] → process_email now e ≠ []) := by
  constructor
  · intro h
    simp only [process_email, h, Bool.false_eq_true, if_false]
  · intro hraw
    unfold process_email
    by_cases hv : validate_cleaned_content (combinedCleaned e) = true
    · simp only [hv, if_true]
      by_cases hr : (extract_thread_info now e).isReply = true
      · simp only [hr, if_true]
        exact List.append_ne_nil_of_right_ne_nil _ (validate_ne_nil _ hv)
      · simp only [Bool.not_eq_true] at hr
        simp only [hr, Bool.false_eq_true, if_false]
        exact validate_ne_nil _ hv
    · simp only [Bool.not_eq_true] at hv
      simp only [hv, Bool.false_eq_true, if_false]
      by_cases hr : (extract_thread_info now e).isReply = true
      · simp only [hr, if_true]
        exact List.append_ne_nil_of_right_ne_nil _ hraw
      · simp only [Bool.not_eq_true] at hr
        simp only [hr, Bool.false_eq_true, if_false]
        exact hraw

/-- Witness for the fallback at the reply `eC4` (invalid cleaned text). -/
theorem fallback_keeps_raw_witness :
    process_email clock0 eC4 =
      (if (extract_thread_info clock0 eC4).isReply then
        replyContext (extract_thread_info clock0 eC4) ++ eC4.rawBody
      else eC4.rawBody) ∧
    process_email clock0 eC4 ≠ [] :=
  ⟨(fallback_keeps_raw clock0 eC4).1 (by decide),
   (fallback_keeps_raw clock0 eC4).2 (by decide)⟩

/-- C4 counterexample: for the reply `eC4` the cleaned content fails
validation, yet the stored summary is not the raw body — a reply-context
marker is prepended to it. -/
theorem fallback_not_raw_for_reply_cex :
    validate_cleaned_content (combinedCleaned eC4) = false ∧
    eC4.rawBody ≠ [] ∧
    process_email clock0 eC4 ≠ eC4.rawBody := by
  refine ⟨by decide, by decide, by decide⟩

/-! Claim about residual quoted lines (C5). -/

/-- C5: evaluating `clean_text` on a message with a quoted line shows the
`>`-quoted line surviving in the output (the whitespace family collapses
all newlines before the quoted-line patterns run, so `>.*\n` never
matches); the output is nevertheless stripped of boundary whitespace. -/
theorem quoted_lines_survive_eval :
    clean_text sC5 none = ("> quoted reply line Hello world content".data) ∧
    '>' ∈ clean_text sC5 none ∧
    pyStrip (clean_text sC5 none) = clean_text sC5 none := by
  refine ⟨by decide, by decide, by decide⟩

/-! Claims about part decoding (C8). -/

/-- C8 (amended): the decoder never consults the declared charset — the
output of `process_email_part` is invariant under changing it — and a part
whose payload cannot be decoded at all yields the empty string. -/
theorem decode_ignores_charset (p : EmailPart) (cs : Option Str) :
    process_email_part { p with charset := cs } = process_email_part p ∧
    (decodeTransfer p = none → process_email_part p = []) := by
  constructor
  · cases p
    rfl
  · intro h
    simp [process_email_part, h]

/-- Witness: a quoted-printable part with a non-ASCII payload decodes to
the empty string, and changing its declared charset changes nothing. -/
theorem decode_ignores_charset_witness :
    process_email_part { partC8b with charset := some ("utf-8".data) } =
      process_email_part partC8b ∧
    process_email_part partC8b = [] :=
  ⟨(decode_ignores_charset partC8b (some ("utf-8".data))).1,
   (decode_ignores_charset partC8b (some ("utf-8".data))).2 (by decide)⟩

/-- C8 counterexample: a quoted-printable part declaring charset
`latin-1` with payload `=E9` decodes to the UTF-8 replacement character,
not to the declared-charset decoding (the letter é): the code never uses
the declared charset or heuristic detection. -/
theorem decode_not_declared_charset_cex :
    partC8.charset = some ("latin-1".data) ∧
    qpDecode partC8.payload = some [233] ∧
    latin1Decode [233] = [Char.ofNat 233] ∧
    decodeTransfer partC8 = some [repChar] ∧
    ([repChar] : Str) ≠ latin1Decode [233] := by
  refine ⟨by decide, by decide, by decide, by decide, by decide⟩

end EmailCore

namespace EmailCore

/-! Claims about participant extraction (C9). -/

theorem toLower_toLower (c : Char) : Char.toLower (Char.toLower c) = Char.toLower c := by
  have key : ∀ n : Nat, n < 55296 → (Char.ofNat n).toNat = n := by
    intro n h1
    have hv : n.isValidChar := Or.inl h1
    simp [Char.ofNat, Char.ofNatAux, Char.toNat, UInt32.toNat, hv, BitVec.toNat_ofNatLt]
  simp only [Char.toLower]
  split
  · next h =>
    rw [if_neg]
    have hb : c.toNat + 32 < 55296 := by omega
    rw [key _ hb]
    omega
  · rfl

theorem lowerStr_idem (s : Str) : lowerStr (lowerStr s) = lowerStr s := by
  unfold lowerStr
  rw [List.map_map]
  exact List.map_congr_left fun c _ => toLower_toLower c

theorem matchEmailAt_spec (s m : Str) (h : matchEmailAt s = some m) :
    '@' ∈ m ∧ m ≠ [] := by
  unfold matchEmailAt at h
  dsimp only at h
  split at h
  · exact absurd h (by simp)
  · split at h
    · split at h
      · have hm := Option.some.inj h
        subst hm
        exact ⟨by simp, by simp⟩
      · exact absurd h (by simp)
    · exact absurd h (by simp)

theorem emailSearch_spec (s : Str) : ∀ m : Str, emailSearch s = some m → '@' ∈ m ∧ m ≠ [] := by
  induction s with
  | nil =>
    intro m h
    simp [emailSearch] at h
  | cons c cs ih =>
    intro m h
    rw [show emailSearch (c :: cs) =
        (match matchEmailAt (c :: cs) with
          | some m2 => some m2
          | none => emailSearch cs) from rfl] at h
    cases hm : matchEmailAt (c :: cs) with
    | some m2 =>
      rw [hm] at h
      cases h
      exact matchEmailAt_spec _ _ hm
    | none =>
      rw [hm] at h
      exact ih m h

theorem extract_email_spec (a r : Str) (h : extract_email a = some r) :
    r ≠ [] ∧ '@' ∈ r ∧ lowerStr r = r := by
  unfold extract_email at h
  cases hs : emailSearch a with
  | none => rw [hs] at h; exact absurd h (by simp)
  | some m =>
    rw [hs] at h
    have hr : lowerStr m = r := Option.some.inj h
    obtain ⟨hat, hne⟩ := emailSearch_spec a m hs
    subst hr
    refine ⟨?_, ?_, lowerStr_idem m⟩
    · simpa [lowerStr] using hne
    · unfold lowerStr
      exact List.mem_map.mpr ⟨'@', hat, by decide⟩

theorem mem_setAdd (l : List (Option Str)) (y x : Option Str) (h : x ∈ setAdd l y) :
    x ∈ l ∨ x = y := by
  unfold setAdd at h
  by_cases hy : y ∈ l
  · rw [if_pos hy] at h
    exact Or.inl h
  · rw [if_neg hy] at h
    simpa using h

theorem addIfMatch_spec (acc : List (Option Str)) (a : Str)
    (hacc : ∀ x : Str, some x ∈ acc → GoodEntry x) :
    ∀ x : Str, some x ∈ addIfMatch acc a → GoodEntry x := by
  intro x hx
  unfold addIfMatch at hx
  cases hext : extract_email a with
  | none => rw [hext] at hx; exact hacc x hx
  | some r =>
    rw [hext] at hx
    dsimp only at hx
    by_cases hr : r = []
    · rw [if_pos hr] at hx
      exact hacc x hx
    · rw [if_neg hr] at hx
      rcases mem_setAdd _ _ _ hx with hold | heq
      · exact hacc x hold
      · have hxr : x = r := Option.some.inj heq
        subst hxr
        exact extract_email_spec a x hext

theorem foldl_addIfMatch_spec (l : List Str) :
    ∀ acc : List (Option Str), (∀ x : Str, some x ∈ acc → GoodEntry x) →
      ∀ x : Str, some x ∈ l.foldl addIfMatch acc → GoodEntry x := by
  induction l with
  | nil => exact fun acc hacc => hacc
  | cons a l ih =>
    intro acc hacc
    rw [List.foldl_cons]
    exact ih _ (addIfMatch_spec acc a hacc)

/-- C9 (amended): every non-null participant produced by the resolver is a
nonempty lower-cased string containing `@` (extracted by the permissive
pattern); non-matching To/Cc strings are dropped, while a truthy
non-matching `from` value contributes a null entry instead. -/
theorem participants_lowercased (now : Str) (e : EmailData) (r : Str)
    (h : some r ∈ (extract_thread_info now e).participants) :
    r ≠ [] ∧ '@' ∈ r ∧ lowerStr r = r := by
  have hrun : ∀ x : Str, some x ∈ participantsOf e → GoodEntry x := by
    unfold participantsOf
    have hp1 : ∀ x : Str,
        some x ∈ (match e.sender with
          | some f => if f = [] then ([] : List (Option Str)) else setAdd [] (extract_email f)
          | none => ([] : List (Option Str))) → GoodEntry x := by
      intro x hx
      cases hf : e.sender with
      | none => rw [hf] at hx; simp at hx
      | some f =>
        rw [hf] at hx
        dsimp only at hx
        by_cases hfe : f = []
        · rw [if_pos hfe] at hx
          simp at hx
        · rw [if_neg hfe] at hx
          rcases mem_setAdd _ _ _ hx with hold | heq
          · simp at hold
          · have : extract_email f = some x := heq.symm
            exact extract_email_spec f x this
    have hp2 : ∀ x : Str,
        some x ∈ (if e.parsed.toH = [] then
            (match e.sender with
              | some f => if f = [] then ([] : List (Option Str)) else setAdd [] (extract_email f)
              | none => ([] : List (Option Str)))
          else (splitComma e.parsed.toH).foldl addIfMatch
            (match e.sender with
              | some f => if f = [] then ([] : List (Option Str)) else setAdd [] (extract_email f)
              | none => ([] : List (Option Str)))) → GoodEntry x := by
      by_cases hto : e.parsed.toH = []
      · rw [if_pos hto]
        exact hp1
      · rw [if_neg hto]
        exact foldl_addIfMatch_spec _ _ hp1
    by_cases hcc : e.parsed.ccH = []
    · rw [if_pos hcc]
      exact hp2
    · rw [if_neg hcc]
      exact foldl_addIfMatch_spec _ _ hp2
  exact hrun r h

/-- Witness: an upper-case sender address yields a lower-cased participant
satisfying the extracted-address properties. -/
theorem participants_lowercased_witness :
    some ("bob@ex.com".data) ∈ (extract_thread_info clock0 eC9w).participants ∧
    (("bob@ex.com".data) ≠ [] ∧ '@' ∈ ("bob@ex.com".data) ∧
      lowerStr ("bob@ex.com".data) = ("bob@ex.com".data)) :=
  ⟨by decide, participants_lowercased clock0 eC9w ("bob@ex.com".data) (by decide)⟩

/-- C9 counterexample: a truthy `from` value with no address pattern puts
`None` into the participant set, so the set does not consist only of
matching strings. -/
theorem participants_none_entry_cex :
    participantsOf eC9 = [none] ∧
    none ∈ (extract_thread_info clock0 eC9).participants := by
  refine ⟨by decide, by decide⟩

end EmailCore

namespace EmailCore

/-! Identity lemmas for the cleaning passes (C7). -/

theorem lastIdxOf_eq_none (ch : Char) (s : Str) (h : ch ∉ s) : lastIdxOf ch s = none := by
  induction s with
  | nil => rfl
  | cons c cs ih =>
    have hc : c ≠ ch := fun he => h (he ▸ List.mem_cons_self c cs)
    have hcs : ch ∉ cs := fun hm => h (List.mem_cons_of_mem c hm)
    unfold lastIdxOf
    rw [ih hcs]
    simp [hc]

theorem subTokNL_of_no_newline (tok s : Str) (h : '\n' ∉ s) : subTokNL tok s = s := by
  unfold subTokNL
  rw [lastIdxOf_eq_none '\n' s h]

theorem foldl_subTokNL_of_no_newline (toks : List Str) (s : Str) (h : '\n' ∉ s) :
    toks.foldl (fun t tok => subTokNL tok t) s = s := by
  induction toks with
  | nil => rfl
  | cons tok toks ih =>
    rw [List.foldl_cons, subTokNL_of_no_newline tok s h, ih]

theorem containsCI_cons (pat : Str) (c : Char) (cs : Str) :
    containsCI pat (c :: cs) = (startsCI pat (c :: cs) || containsCI pat cs) := by
  show (findCI pat (c :: cs)).isSome = _
  rw [show findCI pat (c :: cs) =
      (if startsCI pat (c :: cs) = true then some 0
       else (findCI pat cs).map (· + 1)) from rfl]
  by_cases hs : startsCI pat (c :: cs) = true
  · rw [if_pos hs, hs]
    rfl
  · rw [if_neg hs]
    have hs2 : startsCI pat (c :: cs) = false := by simpa using hs
    rw [hs2, Bool.false_or]
    show (Option.map _ (findCI pat cs)).isSome = (findCI pat cs).isSome
    cases findCI pat cs <;> rfl

theorem findCI_eq_none (pat s : Str) (h : containsCI pat s = false) : findCI pat s = none := by
  unfold containsCI at h
  cases hf : findCI pat s with
  | none => rfl
  | some v =>
    rw [hf] at h
    simp at h

theorem subTokEnd_of_not_contains (tok s : Str) (h : containsCI tok s = false) :
    subTokEnd tok s = s := by
  unfold subTokEnd
  rw [findCI_eq_none tok s h]

theorem subChainEnd_of_none (t : Str) (rest : List Str) (s : Str)
    (h : findChain t rest s = none) : subChainEnd t rest s = s := by
  unfold subChainEnd
  rw [h]

theorem subDashTokEnd_of_none (tok s : Str) (h : findDashTok tok s = none) :
    subDashTokEnd tok s = s := by
  unfold subDashTokEnd
  rw [h]

theorem matchDashNL_eq_false (s : Str) (h : '\n' ∉ s) : matchDashNL s = false := by
  unfold matchDashNL
  split
  · next rest =>
    have hr : '\n' ∉ rest.takeWhile isWS := by
      intro hm
      exact h (by
        have : '\n' ∈ rest := (rest.takeWhile_sublist isWS).mem hm
        simp [this])
    simpa using hr
  · rfl

theorem findDashNL_eq_none (s : Str) (h : '\n' ∉ s) : findDashNL s = none := by
  induction s with
  | nil => rfl
  | cons c cs ih =>
    have hcs : '\n' ∉ cs := fun hm => h (List.mem_cons_of_mem c hm)
    unfold findDashNL
    rw [matchDashNL_eq_false _ h, ih hcs]
    rfl

theorem subDashNLEnd_of_no_newline (s : Str) (h : '\n' ∉ s) : subDashNLEnd s = s := by
  unfold subDashNLEnd
  rw [findDashNL_eq_none s h]

theorem subBracketTok_of_not_contains (tok s : Str) (h : containsCI tok s = false) :
    subBracketTok tok s = s := by
  unfold subBracketTok
  rw [findCI_eq_none tok s h]

theorem subImageNumF_of_not_contains :
    ∀ (fuel : Nat) (s : Str),
      containsCI ('<' :: 'i' :: 'm' :: 'a' :: 'g' :: 'e' :: []) s = false →
      subImageNumF fuel s = s := by
  intro fuel
  induction fuel with
  | zero => intro s _; rfl
  | succ fuel ih =>
    intro s h
    cases s with
    | nil => rfl
    | cons c cs =>
      rw [containsCI_cons] at h
      have h1 : startsCI ('<' :: 'i' :: 'm' :: 'a' :: 'g' :: 'e' :: []) (c :: cs) = false := by
        cases hb : startsCI ('<' :: 'i' :: 'm' :: 'a' :: 'g' :: 'e' :: []) (c :: cs) <;>
          simp [hb] at h ⊢
      have h2 : containsCI ('<' :: 'i' :: 'm' :: 'a' :: 'g' :: 'e' :: []) cs = false := by
        cases hb : containsCI ('<' :: 'i' :: 'm' :: 'a' :: 'g' :: 'e' :: []) cs <;>
          simp [hb] at h ⊢
      unfold subImageNumF
      rw [h1]
      simp only [Bool.false_eq_true, if_false]
      rw [ih cs h2]

theorem subImageNum_of_not_contains (s : Str)
    (h : containsCI ("<image".data) s = false) : subImageNum s = s :=
  subImageNumF_of_not_contains s.length s h

theorem collapseRunAux_of_not_mem (ch : Char) :
    ∀ (s : Str) (b : Bool), ch ∉ s → collapseRunAux ch b s = s := by
  intro s
  induction s with
  | nil => intro b _; rfl
  | cons c cs ih =>
    intro b h
    have hc : c ≠ ch := fun he => h (he ▸ List.mem_cons_self c cs)
    have hcs : ch ∉ cs := fun hm => h (List.mem_cons_of_mem c hm)
    unfold collapseRunAux
    rw [if_neg (by simpa using hc), ih false hcs]

theorem collapseRun_of_not_mem (ch : Char) (s : Str) (h : ch ∉ s) :
    collapseRun ch s = s :=
  collapseRunAux_of_not_mem ch s false h

theorem spaceOnly_cons (c : Char) (cs : Str) (h : spaceOnly (c :: cs) = true) :
    (isWS c = true → c = ' ') ∧ spaceOnly cs = true := by
  unfold spaceOnly at h ⊢
  rw [List.all_cons] at h
  constructor
  · intro hw
    have := (Bool.and_eq_true _ _).mp h |>.1
    rw [hw] at this
    simpa using this
  · exact ((Bool.and_eq_true _ _).mp h).2

theorem singleSpaced_tail (c : Char) (cs : Str) (h : singleSpaced (c :: cs) = true) :
    singleSpaced cs = true := by
  cases cs with
  | nil => rfl
  | cons b rest =>
    unfold singleSpaced at h
    exact ((Bool.and_eq_true _ _).mp h).2

theorem singleSpaced_no_double (b : Char) (rest : Str)
    (h : singleSpaced (' ' :: b :: rest) = true) : b ≠ ' ' := by
  unfold singleSpaced at h
  have := ((Bool.and_eq_true _ _).mp h).1
  intro hb
  subst hb
  simp at this

theorem collapseWSAux_id (s : Str) :
    spaceOnly s = true → singleSpaced s = true →
      collapseWSAux false s = s ∧ (s.head? ≠ some ' ' → collapseWSAux true s = s) := by
  induction s with
  | nil => intro _ _; exact ⟨rfl, fun _ => rfl⟩
  | cons c cs ih =>
    intro hsp hss
    obtain ⟨hc, hspcs⟩ := spaceOnly_cons c cs hsp
    have hsscs := singleSpaced_tail c cs hss
    by_cases hw : isWS c = true
    · have hcsp : c = ' ' := hc hw
      subst hcsp
      have htrue : collapseWSAux true cs = cs := by
        cases cs with
        | nil => rfl
        | cons b rest =>
          have hb : b ≠ ' ' := singleSpaced_no_double b rest hss
          exact (ih hspcs hsscs).2 (by simpa using hb)
      constructor
      · unfold collapseWSAux
        rw [if_pos hw]
        simp only [Bool.false_eq_true, if_false]
        rw [htrue]
      · intro habs
        exact absurd rfl habs
    · have hfalse : collapseWSAux false cs = cs := (ih hspcs hsscs).1
      constructor
      · unfold collapseWSAux
        rw [if_neg hw, hfalse]
      · intro _
        unfold collapseWSAux
        rw [if_neg hw, hfalse]

theorem collapseWS_id (s : Str) (hsp : spaceOnly s = true) (hss : singleSpaced s = true) :
    collapseWS s = s :=
  (collapseWSAux_id s hsp hss).1

theorem pyStrip_id (s : Str) (h : strippedB s = true) : pyStrip s = s := by
  unfold strippedB at h
  obtain ⟨h1, h2⟩ := (Bool.and_eq_true _ _).mp h
  have hd : s.dropWhile isWS = s := by
    cases hs : s with
    | nil => rfl
    | cons c cs =>
      rw [hs] at h1
      simp only [List.head?_cons, Option.elim_some] at h1
      have h1f : isWS c = false := by simpa using h1
      rw [List.dropWhile_cons, if_neg (by simp [h1f])]
  unfold pyStrip
  rw [hd]
  have hr : s.reverse.dropWhile isWS = s.reverse := by
    cases hs : s.reverse with
    | nil => rfl
    | cons c cs =>
      have hlast : s.getLast? = some c := by
        rw [← List.head?_reverse, hs]
        rfl
      rw [hlast] at h2
      simp only [Option.elim_some] at h2
      have h2f : isWS c = false := by simpa using h2
      rw [List.dropWhile_cons, if_neg (by simp [h2f])]
  rw [hr, List.reverse_reverse]

theorem spaceOnly_not_mem (s : Str) (hsp : spaceOnly s = true) (c : Char)
    (hw : isWS c = true) (hc : c ≠ ' ') : c ∉ s := by
  intro hm
  have := List.all_eq_true.mp hsp c hm
  rw [hw] at this
  simp at this
  exact hc this

/-- C7 (amended): `clean_text` is the identity on text that no longer
triggers any of its passes — whitespace already normalized to single
spaces, stripped ends, no markup-sniff token, and no occurrence of any
boilerplate pattern.  (It is not idempotent in general; see the
counterexample.) -/
theorem clean_text_fixed_point (o : Str)
    (hsp : spaceOnly o = true) (hss : singleSpaced o = true) (hst : strippedB o = true)
    (hsn : sniffHTML o = false)
    (hF1 : findDashTok ("Forwarded message".data) o = none)
    (hF2 : containsCI ("Begin forwarded message:".data) o = false)
    (hF3 : containsCI ("Original Message".data) o = false)
    (hR1 : findChain ("On".data) [("wrote:".data)] o = none)
    (hR2 : findChain ("On".data) [(",".data), ("wrote:".data)] o = none)
    (hR3 : findChain ("From:".data) [("Sent:".data), ("To:".data), ("Subject:".data)] o = none)
    (hS1 : containsCI ("Best regards,".data) o = false)
    (hS2 : containsCI ("Regards,".data) o = false)
    (hS3 : containsCI ("Thanks,".data) o = false)
    (hS4 : containsCI ("Cheers,".data) o = false)
    (hS5 : containsCI ("Sincerely,".data) o = false)
    (hA1 : containsCI ("[image:".data) o = false)
    (hA2 : containsCI ("[cid:".data) o = false)
    (hA3 : containsCI ("<image".data) o = false) :
    clean_text o none = o := by
  have hnl : '\n' ∉ o := spaceOnly_not_mem o hsp '\n' (by decide) (by decide)
  have htab : '\t' ∉ o := spaceOnly_not_mem o hsp '\t' (by decide) (by decide)
  have hap : applyPatterns o = o := by
    unfold applyPatterns
    dsimp only
    rw [foldl_subTokNL_of_no_newline headerToks o hnl,
      subDashTokEnd_of_none _ _ hF1,
      subTokEnd_of_not_contains _ _ hF2,
      subTokEnd_of_not_contains _ _ hF3,
      subChainEnd_of_none _ _ _ hR1,
      subChainEnd_of_none _ _ _ hR2,
      subChainEnd_of_none _ _ _ hR3,
      subDashNLEnd_of_no_newline _ hnl,
      subTokEnd_of_not_contains _ _ hS1,
      subTokEnd_of_not_contains _ _ hS2,
      subTokEnd_of_not_contains _ _ hS3,
      subTokEnd_of_not_contains _ _ hS4,
      subTokEnd_of_not_contains _ _ hS5,
      collapseWS_id o hsp hss,
      collapseRun_of_not_mem '\n' o hnl,
      collapseRun_of_not_mem '\t' o htab,
      subTokNL_of_no_newline (['>']) o hnl,
      subTokNL_of_no_newline (['|']) o hnl,
      subBracketTok_of_not_contains _ _ hA1,
      subBracketTok_of_not_contains _ _ hA2,
      subImageNum_of_not_contains o hA3]
  by_cases ho : o = []
  · subst ho
    rfl
  · unfold clean_text
    rw [if_neg ho]
    dsimp only
    rw [hsn]
    simp only [Bool.false_eq_true, if_false]
    rw [hap, collapseWS_id o hsp hss, pyStrip_id o hst]

/-- Witness: already-clean text with no pattern triggers is returned
unchanged by a second cleaning pass. -/
theorem clean_text_fixed_point_witness : clean_text sC7fix none = sC7fix :=
  clean_text_fixed_point sC7fix (by decide) (by decide) (by decide) (by decide)
    (by decide) (by decide) (by decide) (by decide) (by decide) (by decide)
    (by decide) (by decide) (by decide) (by decide) (by decide) (by decide)
    (by decide) (by decide)

/-- C7 counterexample: cleaning is not idempotent — removing the `[cid:x]`
placeholder splices `original` and `message` into a forwarding banner that
the second pass removes, so cleaning the once-cleaned text changes it. -/
theorem clean_text_not_idempotent_cex :
    clean_text (clean_text sC7 none) none ≠ clean_text sC7 none := by
  decide

end EmailCore
